import Mathlib

/-!
Verification of the Dynamite minibatch-conversion helpers
(`Source/Dynamite/CNTKLibraryHelpers.h`): the axis-dropping slice `Index`,
the cached identity-matrix generator `MakeEye`/`Eye`, and the batch
unpacker `FromCNTKMB`.

Tensors (`NDArrayView`) are modelled as a dimension list plus a flat
buffer, laid out column-major (first dimension fastest-varying), as in
CNTK `NDShape`.  Element values are modelled with exact rationals.
External CNTK library primitives (`SliceView`, `AsShape`, `DeepClone`,
`MatrixProduct`, `UnpackVariableValue`) are not part of this source file;
they are modelled from the specification and marked as such.
The static identity cache is threaded explicitly, and the `res`
out-parameter of `FromCNTKMB` is threaded as a value that is returned
alongside the error status, so that its contents after a thrown error
remain observable, as they are for the C++ caller.
-/

namespace Dynamite

/-- CNTK element data types (from `CNTK::DataType`). -/
inductive DataType
  | Unknown
  | Float
  | Double
  | UChar
  | Float16
  | Int8
  | Int16
deriving DecidableEq

/-- Devices are identified by a numeric id; `0` is the CPU device. -/
abbrev Device := Nat

/-- `DeviceDescriptor::CPUDevice()`. -/
def CPUDevice : Device := 0

/-- A CNTK `NDArrayView`: a shape (dimension list, fastest-varying axis
first), a storage-format flag, a data type, a device, and a flat buffer
modelled as a total function from flat offsets to exact values. -/
structure NDArrayView where
  dataType : DataType
  shape : List Nat
  isSparse : Bool
  device : Device
  flat : Nat → ℚ

/-- Product of a dimension list (total element count of a shape). -/
def listProd : List Nat → Nat
  | [] => 1
  | d :: ds => d * listProd ds

/-- Column-major flat offset of a multi-index `idx` in a shape `ds`. -/
def flatten : List Nat → List Nat → Nat
  | [], _ => 0
  | _ :: _, [] => 0
  | i :: is, d :: ds => i + d * flatten is ds

/-- Column-major multi-index of a flat offset `p` in a shape `ds`. -/
def unflatten : Nat → List Nat → List Nat
  | _, [] => []
  | p, d :: ds => p % d :: unflatten (p / d) ds

/-- The element of a view at a multi-index. -/
def NDArrayView.entry (t : NDArrayView) (idx : List Nat) : ℚ :=
  t.flat (flatten idx t.shape)

/-- Modelled from the spec: `NDArrayView::SliceView(startOffset, extent,
readOnly)` returns a view whose shape is `extent`; extent entries missing
for trailing axes default to 1 but do not generate an output axis, so the
output multi-index is completed with the fixed offsets of those axes.
The storage format, data type and device are those of the input. -/
def NDArrayView.SliceView (t : NDArrayView) (startOffset extent : List Nat)
    (_readOnly : Bool) : NDArrayView :=
  { t with
    shape := extent,
    flat := fun p =>
      t.flat (flatten
        (List.zipWith (fun a b => a + b) (unflatten p extent) startOffset
          ++ startOffset.drop extent.length) t.shape) }

/-- Modelled from the spec: `NDArrayView::AsShape` reinterprets the same
flat buffer under a new shape descriptor (a pure reshape, zero-copy). -/
def NDArrayView.AsShape (t : NDArrayView) (newShape : List Nat) : NDArrayView :=
  { t with shape := newShape }

/-- Modelled from the spec: `NDArrayView::DeepClone(device)` copies the
view to the requested device; shape and element values are unchanged. -/
def NDArrayView.DeepClone (t : NDArrayView) (device : Device) : NDArrayView :=
  { t with device := device }

/-- The branch condition of `Index`: C++
`startOffset.back() != i || extent.back() != 1` evaluated at the point of
the test, where `startOffset` is still all zeros and `extent` still equals
the dimension list.  `true` selects the slice path, `false` the
reshape path. -/
def slicePath (dims : List Nat) (i : Nat) : Bool :=
  ((List.replicate dims.length 0).getLastD 0 != i) || (dims.getLastD 0 != 1)

/-- `Index`: slice the last dimension of an `NDArrayView` at offset `i`,
then drop that axis (from the source). -/
def Index (data : NDArrayView) (i : Nat) : NDArrayView :=
  let dims := data.shape
  if slicePath dims i then
    let startOffset := (List.replicate dims.length 0).set (dims.length - 1) i
    let extent := dims.dropLast
    data.SliceView startOffset extent true
  else
    data.AsShape dims.dropLast

/-- Pointwise update of a flat buffer (one `buffer[j] = v` store). -/
def setAt (f : Nat → ℚ) (j : Nat) (v : ℚ) : Nat → ℚ :=
  fun p => if p = j then v else f p

/-- The diagonal-filling loop of `MakeEye`: starting from a buffer `f`,
perform the stores `buffer[k*n + k] = 1` for every `k < m`. -/
def eyeLoop (n : Nat) : Nat → (Nat → ℚ) → (Nat → ℚ)
  | 0, f => f
  | m + 1, f => setAt (eyeLoop n m f) (m * n + m) 1

/-- The host-resident identity tensor built by `MakeEye` before the device
copy: an `n x n` dense view on the CPU device over a zero-filled buffer of
`n*n` elements with the diagonal stores applied. -/
def hostEye (n : Nat) (dataType : DataType) : NDArrayView :=
  { dataType := dataType, shape := [n, n], isSparse := false,
    device := CPUDevice, flat := eyeLoop n n (fun _ => 0) }

/-- `MakeEye<ElementType>` (from the source): build the identity matrix in
a host buffer, wrap it on the CPU device, then deep-clone it to the
requested device.  The two C++ instantiations (`float`, `double`) differ
only in the element storage type, which this model represents exactly. -/
def MakeEye (n : Nat) (dataType : DataType) (device : Device) : NDArrayView :=
  (hostEye n dataType).DeepClone device

/-- The failures of this core, named as in the spec taxonomy: the
`LogicError` for mismatched sequence counts, the `LogicError` for a
non-sequential stream with a trailing dimension other than 1, and the
`logic_error` thrown by `Eye` for an unsupported data type. -/
inductive CNTKError
  | BatchShapeMismatchError
  | MalformedStreamError
  | UnsupportedTypeError
deriving DecidableEq

/-- The static `map<pair<size_t, DataType>, NDArrayViewPtr>` of `Eye`,
threaded explicitly. -/
abbrev EyeCache := List ((Nat × DataType) × NDArrayView)

/-- `map::find` on the cache. -/
def cacheFind (c : EyeCache) (k : Nat × DataType) : Option NDArrayView :=
  match c with
  | [] => none
  | (k1, v) :: rest => if k1 = k then some v else cacheFind rest k

/-- `cached[key] = eye` (only reached when `key` is absent). -/
def cacheInsert (c : EyeCache) (k : Nat × DataType) (v : NDArrayView) : EyeCache :=
  (k, v) :: c

/-- `Eye` (from the source): look up the `(n, dataType)` key; on a hit
return the cached view, on a miss build the identity with `MakeEye` for
`Float`/`Double`, store it and return it; otherwise throw. The `device`
argument does not participate in the key. -/
def Eye (n : Nat) (dataType : DataType) (device : Device) (cache : EyeCache) :
    Except CNTKError (NDArrayView × EyeCache) :=
  match cacheFind cache (n, dataType) with
  | some v => .ok (v, cache)
  | none =>
    match dataType with
    | .Float =>
      let eye := MakeEye n dataType device
      .ok (eye, cacheInsert cache (n, dataType) eye)
    | .Double =>
      let eye := MakeEye n dataType device
      .ok (eye, cacheInsert cache (n, dataType) eye)
    | _ => .error .UnsupportedTypeError

/-- Sum of `f 0 + f 1 + ... + f (m-1)`. -/
def sumTo : Nat → (Nat → ℚ) → ℚ
  | 0, _ => 0
  | m + 1, f => sumTo m f + f m

/-- Modelled from the spec: `NDArrayView::MatrixProduct` as used here —
left-multiplication of `B` (viewed as a matrix whose rows are its leading
dimension) by the matrix `A`, with no transposition and scale `alpha`;
the result keeps `A`'s leading dimension followed by the remaining axes of
`B`, and is materialized dense. -/
def MatrixProduct (_transC : Bool) (A : NDArrayView) (_transA : Bool)
    (B : NDArrayView) (_transB : Bool) (alpha : ℚ) (_outputRank : Nat) :
    NDArrayView :=
  let n := A.shape.headD 0
  let k := B.shape.headD 0
  { dataType := B.dataType, shape := n :: B.shape.tail, isSparse := false,
    device := B.device,
    flat := fun p =>
      alpha * sumTo k (fun j => A.entry [p % n, j] * B.flat (j + k * (p / n))) }

/-- A CNTK `Value` holding one packed stream: full shape
`sample ++ [maxLength, batch]`, per-batch-item sequence lengths, storage
format, data type and a flat buffer. -/
structure Value where
  dataType : DataType
  isSparse : Bool
  shape : List Nat
  seqLengths : List Nat
  flat : Nat → ℚ

/-- A default `Value` (used only for out-of-range list reads). -/
def defaultValue : Value :=
  { dataType := .Unknown, isSparse := false, shape := [], seqLengths := [],
    flat := fun _ => 0 }

/-- Modelled from the spec: `Value::UnpackVariableValue` splits a packed
stream of shape `sample ++ [maxLength, batch]` into one view per batch
item; item `s` has shape `sample ++ [length_s]` and reads the `s`-th
column-major batch slab, and is placed on the requested device with the
stream's storage format and data type. -/
def UnpackVariableValue (v : Value) (device : Device) : List NDArrayView :=
  let rank := v.shape.length
  let sampleShape := v.shape.take (rank - 2)
  let maxLen := v.shape.getD (rank - 2) 0
  let batch := v.shape.getD (rank - 1) 0
  (List.range batch).map (fun s =>
    { dataType := v.dataType, isSparse := v.isSparse, device := device,
      shape := sampleShape ++ [v.seqLengths.getD s 0],
      flat := fun p => v.flat (p + s * (listProd sampleShape * maxLen)) })

/-- CNTK dynamic axes as used here. -/
inductive Axis
  | defaultDynamicAxis
  | defaultBatchAxis
deriving DecidableEq

/-- `Axis::DefaultInputVariableDynamicAxes()`. -/
def DefaultInputVariableDynamicAxes : List Axis :=
  [.defaultDynamicAxis, .defaultBatchAxis]

/-- The dynamic-axis list chosen for a stream by `FromCNTKMB`. -/
def dynAxesFor (isSeq : Bool) : List Axis :=
  if isSeq then DefaultInputVariableDynamicAxes else [.defaultBatchAxis]

/-- `hasAxis = variable.DynamicAxes().size() > 1` for a stream with the
given sequence flag. -/
def hasAxisFor (isSeq : Bool) : Bool :=
  decide (1 < (dynAxesFor isSeq).length)

/-- A `Constant` computation-graph leaf wrapping a view. -/
structure Constant where
  data : NDArrayView

/-- A default view (models a default-constructed null `Variable` slot). -/
def defaultNDArrayView : NDArrayView :=
  { dataType := .Unknown, shape := [], isSparse := false, device := CPUDevice,
    flat := fun _ => 0 }

/-- The slot value created by `arg.resize(numSeq)`. -/
def defaultConstant : Constant := ⟨defaultNDArrayView⟩

/-- The sparse-to-dense step of the inner loop of `FromCNTKMB`: if the
view is sparse, multiply it from the left with `Eye(shape[0], ...)`. -/
def densifyStep (data : NDArrayView) (cache : EyeCache) :
    Except CNTKError (NDArrayView × EyeCache) :=
  if data.isSparse then
    match Eye (data.shape.headD 0) data.dataType data.device cache with
    | .error e => .error e
    | .ok (eye, cache1) =>
      .ok (MatrixProduct false eye false data false 1 1, cache1)
  else
    .ok (data, cache)

/-- The body of the inner loop of `FromCNTKMB` for one unpacked example:
for a stream without a sequence axis, check the trailing dimension and
drop it with `Index`, then densify if sparse. -/
def processExample (hasAxis : Bool) (data : NDArrayView) (cache : EyeCache) :
    Except CNTKError (NDArrayView × EyeCache) :=
  if hasAxis then
    densifyStep data cache
  else if data.shape.getLastD 0 ≠ 1 then
    .error .MalformedStreamError
  else
    densifyStep (Index data 0) cache

/-- The inner loop of `FromCNTKMB` over example indices `idxs`, writing
`arg[s] = Constant(data)` for each processed example; on a thrown error
the partially written `arg` is kept, as the C++ reference `arg` is. -/
def seqLoop (hasAxis : Bool) (sequences : List NDArrayView) :
    List Nat → List Constant → EyeCache →
    Except CNTKError Unit × List Constant × EyeCache
  | [], arg, cache => (.ok (), arg, cache)
  | s :: rest, arg, cache =>
    match processExample hasAxis (sequences.getD s defaultNDArrayView) cache with
    | .error e => (.error e, arg, cache)
    | .ok (d, cache1) => seqLoop hasAxis sequences rest (arg.set s ⟨d⟩) cache1

/-- The outer loop of `FromCNTKMB` over the remaining inputs, carrying the
argument index `i`, the recorded `numSeq`, the `res` out-parameter and the
identity cache.  The `numSeq` record/check and the inner loop mirror the
source statement for statement. -/
def argLoop (device : Device) (isSequence : List Bool) :
    List Value → Nat → Nat → List (List Constant) → EyeCache →
    Except CNTKError Unit × List (List Constant) × EyeCache
  | [], _, _, res, cache => (.ok (), res, cache)
  | input :: rest, i, numSeq, res, cache =>
    let sequences := UnpackVariableValue input device
    if numSeq ≠ 0 ∧ numSeq ≠ sequences.length then
      (.error .BatchShapeMismatchError, res, cache)
    else
      let numSeq1 := if numSeq = 0 then sequences.length else numSeq
      let hasAxis := hasAxisFor (isSequence.getD i false)
      let arg0 := List.replicate numSeq1 defaultConstant
      match seqLoop hasAxis sequences (List.range numSeq1) arg0 cache with
      | (.error e, argPartial, cache1) => (.error e, res.set i argPartial, cache1)
      | (.ok _, argFull, cache1) =>
        argLoop device isSequence rest (i + 1) numSeq1 (res.set i argFull) cache1

/-- `vector::clear()`. -/
def vecClear {α : Type} (_v : List α) : List α := []

/-- `vector::resize(n)`: truncate or extend with default elements. -/
def vecResize {α : Type} (v : List α) (n : Nat) (dflt : α) : List α :=
  v.take n ++ List.replicate (n - v.length) dflt

/-- `FromCNTKMB` (from the source): clear and resize the `res`
out-parameter, then run the argument loop.  The returned triple is the
error status, the final contents of `res`, and the final identity cache. -/
def FromCNTKMB (res : List (List Constant)) (inputs : List Value)
    (isSequence : List Bool) (device : Device) (cache : EyeCache) :
    Except CNTKError Unit × List (List Constant) × EyeCache :=
  let numArgs := inputs.length
  let res0 := vecResize (vecClear res) numArgs []
  argLoop device isSequence inputs 0 0 res0 cache


/-- Well-formedness of the identity cache: every entry for key `(n, dt)`
holds an `n x n` view of a supported data type.  The empty cache is
well-formed and `Eye` preserves well-formedness. -/
def cacheWF (c : EyeCache) : Prop :=
  ∀ e ∈ c, (e.1.2 = DataType.Float ∨ e.1.2 = DataType.Double)
    ∧ e.2.shape = [e.1.1, e.1.1]

/-- An example is clean when the non-sequential trailing-dimension check
cannot fire on it and, if sparse, its data type is supported (so `Eye`
succeeds); clean examples are processed without an error. -/
def exampleClean (hasAxis : Bool) (d : NDArrayView) : Prop :=
  (hasAxis = true ∨ d.shape.getLastD 0 = 1)
  ∧ (d.isSparse = true → d.dataType = .Float ∨ d.dataType = .Double)

instance (hasAxis : Bool) (d : NDArrayView) : Decidable (exampleClean hasAxis d) := by
  unfold exampleClean
  infer_instance

/-- A concrete dense rank-2 view used as a witness input. -/
def t23c : NDArrayView :=
  { dataType := .Float, shape := [2, 3], isSparse := false, device := 0,
    flat := fun p => p }

/-- A concrete sparse view with leading dimension 2 (witness input). -/
def sp23 : NDArrayView :=
  { dataType := .Float, shape := [2, 3], isSparse := true, device := 4,
    flat := fun p => (p : ℚ) / 7 }

/-- A view whose trailing dimension is 2, malformed for a non-sequential
stream (witness input). -/
def mal2 : NDArrayView :=
  { dataType := .Float, shape := [3, 2], isSparse := false, device := 0,
    flat := fun p => p }

/-- A view with trailing dimension 1 (witness input). -/
def nt1 : NDArrayView :=
  { dataType := .Float, shape := [3, 1], isSparse := false, device := 0,
    flat := fun p => p }

/-- A packed stream that unpacks to zero sequences (batch dimension 0). -/
def cexV0 : Value :=
  { dataType := .Float, isSparse := false, shape := [1, 1, 0], seqLengths := [],
    flat := fun _ => 0 }

/-- A packed stream that unpacks to three sequences. -/
def cexV1 : Value :=
  { dataType := .Float, isSparse := false, shape := [1, 1, 3],
    seqLengths := [1, 1, 1], flat := fun _ => 0 }

/-- A packed stream that unpacks to four sequences. -/
def cexV2 : Value :=
  { dataType := .Float, isSparse := false, shape := [1, 1, 4],
    seqLengths := [1, 1, 1, 1], flat := fun _ => 0 }

/-- A non-sequential dense packed stream of shape `[2] ++ [1, 2]`
(sample `[2]`, length 1, batch 2), a witness input. -/
def w9 : Value :=
  { dataType := .Float, isSparse := false, shape := [2, 1, 2],
    seqLengths := [1, 1], flat := fun p => p }

theorem unflatten_length (p : Nat) (ds : List Nat) : (unflatten p ds).length = ds.length := by
  induction ds generalizing p with
  | nil => rfl
  | cons d ds ih => simp [unflatten, ih]

theorem unflatten_flatten (idx ds : List Nat) (h : List.Forall₂ (fun a b => a < b) idx ds) :
    unflatten (flatten idx ds) ds = idx := by
  induction h with
  | nil => rfl
  | cons hab _ ih =>
    rename_i a b idx1 ds1 _
    have hb : 0 < b := Nat.lt_of_le_of_lt (Nat.zero_le _) hab
    simp only [flatten, unflatten]
    rw [Nat.add_mul_mod_self_left, Nat.mod_eq_of_lt hab,
        Nat.add_mul_div_left _ _ hb, Nat.div_eq_of_lt hab, Nat.zero_add, ih]

theorem flatten_append_zero (idx ds : List Nat) (d : Nat) (h : idx.length = ds.length) :
    flatten (idx ++ [0]) (ds ++ [d]) = flatten idx ds := by
  induction idx generalizing ds with
  | nil =>
    cases ds with
    | nil => simp [flatten]
    | cons x xs => simp at h
  | cons i is ih =>
    cases ds with
    | nil => simp at h
    | cons x xs =>
      simp only [List.cons_append, flatten, List.append_eq]
      rw [ih xs (by simpa using h)]

theorem replicate_set_last (r i : Nat) (h : 1 ≤ r) :
    (List.replicate r (0 : Nat)).set (r - 1) i = List.replicate (r - 1) 0 ++ [i] := by
  induction r with
  | zero => omega
  | succ m ih =>
    cases m with
    | zero => rfl
    | succ m1 =>
      simp only [List.replicate, Nat.succ_sub_one] at *
      simp only [List.set]
      rw [ih (by omega)]
      rfl

theorem zipWith_add_replicate_zero (idx : List Nat) (m : Nat) (t : List Nat)
    (h : idx.length = m) :
    List.zipWith (fun a b => a + b) idx (List.replicate m 0 ++ t) = idx := by
  induction idx generalizing m with
  | nil => rfl
  | cons i is ih =>
    cases m with
    | zero => simp at h
    | succ m1 =>
      simp only [List.replicate, List.cons_append, List.zipWith, List.append_eq]
      rw [ih m1 (by simpa using h)]
      simp

theorem replicate_getLastD (n : Nat) : (List.replicate n (0 : Nat)).getLastD 0 = 0 := by
  induction n with
  | zero => rfl
  | succ m ih =>
    cases m with
    | zero => rfl
    | succ k => simpa [List.replicate, List.getLastD] using ih

theorem sumTo_eq_zero (m : Nat) (g : Nat → ℚ) (h : ∀ j, j < m → g j = 0) :
    sumTo m g = 0 := by
  induction m with
  | zero => rfl
  | succ m ih =>
    simp only [sumTo]
    rw [ih (fun j hj => h j (Nat.lt_succ_of_lt hj)), h m (Nat.lt_succ_self m), add_zero]

theorem sumTo_congr (m : Nat) (g g1 : Nat → ℚ) (h : ∀ j, j < m → g j = g1 j) :
    sumTo m g = sumTo m g1 := by
  induction m with
  | zero => rfl
  | succ m ih =>
    simp only [sumTo]
    rw [ih (fun j hj => h j (Nat.lt_succ_of_lt hj)), h m (Nat.lt_succ_self m)]

theorem sumTo_delta (m i : Nat) (f : Nat → ℚ) (hi : i < m) :
    sumTo m (fun j => (if i = j then (1 : ℚ) else 0) * f j) = f i := by
  induction m with
  | zero => omega
  | succ m ih =>
    simp only [sumTo]
    by_cases h : i = m
    · subst h
      rw [if_pos rfl, one_mul,
          sumTo_eq_zero _ _ (fun j hj => by rw [if_neg (by omega), zero_mul]), zero_add]
    · rw [if_neg h, zero_mul, add_zero, ih (by omega)]

theorem eyeLoop_eq (n m : Nat) (f : Nat → ℚ) (p : Nat) :
    eyeLoop n m f p = if ∃ k, k < m ∧ p = k * n + k then 1 else f p := by
  induction m with
  | zero => simp [eyeLoop]
  | succ m ih =>
    simp only [eyeLoop, setAt]
    by_cases hp : p = m * n + m
    · rw [if_pos hp, if_pos ⟨m, Nat.lt_succ_self m, hp⟩]
    · rw [if_neg hp, ih]
      by_cases hex : ∃ k, k < m ∧ p = k * n + k
      · obtain ⟨k, hk, hpk⟩ := hex
        rw [if_pos ⟨k, hk, hpk⟩, if_pos ⟨k, Nat.lt_succ_of_lt hk, hpk⟩]
      · rw [if_neg hex, if_neg ?_]
        rintro ⟨k, hk, hpk⟩
        rcases Nat.lt_succ_iff_lt_or_eq.mp hk with h1 | h1
        · exact hex ⟨k, h1, hpk⟩
        · exact hp (h1 ▸ hpk)

theorem hostEye_flat_diag (n : Nat) (dt : DataType) (i : Nat) (hi : i < n) :
    (hostEye n dt).flat (i * n + i) = 1 := by
  simp only [hostEye]
  rw [eyeLoop_eq, if_pos ⟨i, hi, rfl⟩]

theorem hostEye_flat_off (n : Nat) (dt : DataType) (p : Nat)
    (hp : ¬ ∃ i, i < n ∧ p = i * n + i) : (hostEye n dt).flat p = 0 := by
  simp only [hostEye]
  rw [eyeLoop_eq, if_neg hp]

theorem makeEye_entry (n : Nat) (dt : DataType) (dev : Device) (i j : Nat)
    (hi : i < n) (hj : j < n) :
    (MakeEye n dt dev).entry [i, j] = if i = j then 1 else 0 := by
  have hn : 0 < n := Nat.lt_of_le_of_lt (Nat.zero_le _) hi
  have hsh : flatten [i, j] (MakeEye n dt dev).shape = i + n * j := by
    show flatten [i, j] [n, n] = i + n * j
    simp [flatten]
  simp only [NDArrayView.entry, hsh]
  show (hostEye n dt).flat (i + n * j) = _
  by_cases h : i = j
  · subst h
    rw [if_pos rfl]
    have heq : i + n * i = i * n + i := by ring
    rw [heq]
    exact hostEye_flat_diag n dt i hi
  · rw [if_neg h]
    apply hostEye_flat_off
    rintro ⟨k, hk, hpk⟩
    have h1 : (i + n * j) % n = i := by
      rw [Nat.add_mul_mod_self_left, Nat.mod_eq_of_lt hi]
    rw [hpk] at h1
    have h2 : (k * n + k) % n = k := by
      rw [Nat.mul_comm, Nat.add_comm, Nat.add_mul_mod_self_left, Nat.mod_eq_of_lt hk]
    have hik : i = k := by omega
    subst hik
    have h3 : i * n = n * i := Nat.mul_comm i n
    have hmul : n * j = n * i := by omega
    have hji : j = i := Nat.eq_of_mul_eq_mul_left hn hmul
    exact h (by omega)

theorem cacheWF_nil : cacheWF [] := by
  intro e he
  simp at he

theorem cacheFind_mem (c : EyeCache) (k : Nat × DataType) (v : NDArrayView)
    (h : cacheFind c k = some v) : (k, v) ∈ c := by
  induction c with
  | nil => simp [cacheFind] at h
  | cons e rest ih =>
    obtain ⟨k1, v1⟩ := e
    simp only [cacheFind] at h
    by_cases hk : k1 = k
    · rw [if_pos hk] at h
      subst hk
      cases h
      exact List.mem_cons_self _ _
    · rw [if_neg hk] at h
      exact List.mem_cons_of_mem _ (ih h)

theorem eye_error (n : Nat) (dt : DataType) (dev : Device) (c : EyeCache)
    (e : CNTKError) (h : Eye n dt dev c = .error e) :
    e = .UnsupportedTypeError := by
  unfold Eye at h
  cases hf : cacheFind c (n, dt) with
  | some v => rw [hf] at h; cases h
  | none => rw [hf] at h; cases dt <;> simp_all

theorem eye_ok_of_supported (n : Nat) (dt : DataType) (dev : Device) (c : EyeCache)
    (hdt : dt = .Float ∨ dt = .Double) :
    ∃ v c1, Eye n dt dev c = .ok (v, c1) := by
  unfold Eye
  cases hf : cacheFind c (n, dt) with
  | some v => exact ⟨v, c, rfl⟩
  | none => rcases hdt with h | h <;> subst h <;> exact ⟨_, _, rfl⟩

theorem eye_ok_shape (n : Nat) (dt : DataType) (dev : Device) (c : EyeCache)
    (v : NDArrayView) (c1 : EyeCache) (hWF : cacheWF c)
    (h : Eye n dt dev c = .ok (v, c1)) :
    v.shape = [n, n] ∧ cacheWF c1 := by
  unfold Eye at h
  cases hf : cacheFind c (n, dt) with
  | some w =>
    rw [hf] at h
    cases h
    exact ⟨(hWF _ (cacheFind_mem c (n, dt) v hf)).2, hWF⟩
  | none =>
    rw [hf] at h
    have hins : ∀ dt1, dt1 = dt →
        (dt1 = DataType.Float ∨ dt1 = DataType.Double) →
        v = MakeEye n dt dev ∧ c1 = cacheInsert c (n, dt) (MakeEye n dt dev) →
        v.shape = [n, n] ∧ cacheWF c1 := by
      rintro dt1 rfl hsupp ⟨rfl, rfl⟩
      refine ⟨rfl, ?_⟩
      intro e he
      rcases List.mem_cons.mp he with h1 | h1
      · subst h1
        exact ⟨hsupp, rfl⟩
      · exact hWF e h1
    cases dt with
    | Float =>
      refine hins _ rfl (Or.inl rfl) ?_
      cases h
      exact ⟨rfl, rfl⟩
    | Double =>
      refine hins _ rfl (Or.inr rfl) ?_
      cases h
      exact ⟨rfl, rfl⟩
    | Unknown => cases h
    | UChar => cases h
    | Float16 => cases h
    | Int8 => cases h
    | Int16 => cases h

theorem drop_replicate_append (m x : Nat) (t : List Nat) :
    (List.replicate m x ++ t).drop m = t := by
  induction m with
  | zero => simp
  | succ k ih => simpa [List.replicate] using ih

theorem index_shape (d : NDArrayView) (i : Nat) :
    (Index d i).shape = d.shape.dropLast := by
  by_cases h : slicePath d.shape i <;>
    simp [Index, h, NDArrayView.SliceView, NDArrayView.AsShape]

theorem index_isSparse (d : NDArrayView) (i : Nat) :
    (Index d i).isSparse = d.isSparse := by
  by_cases h : slicePath d.shape i <;>
    simp [Index, h, NDArrayView.SliceView, NDArrayView.AsShape]

theorem index_dataType (d : NDArrayView) (i : Nat) :
    (Index d i).dataType = d.dataType := by
  by_cases h : slicePath d.shape i <;>
    simp [Index, h, NDArrayView.SliceView, NDArrayView.AsShape]

theorem index_device (d : NDArrayView) (i : Nat) :
    (Index d i).device = d.device := by
  by_cases h : slicePath d.shape i <;>
    simp [Index, h, NDArrayView.SliceView, NDArrayView.AsShape]

theorem slicePath_false_iff (dims : List Nat) (i : Nat) :
    slicePath dims i = false ↔ i = 0 ∧ dims.getLastD 0 = 1 := by
  simp only [slicePath, replicate_getLastD, Bool.or_eq_false_iff, bne_eq_false_iff_eq]
  constructor
  · rintro ⟨h1, h2⟩
    exact ⟨h1.symm, h2⟩
  · rintro ⟨h1, h2⟩
    exact ⟨h1.symm, h2⟩

/-- Claim C3 helper: the content of `Index` on both paths. -/
theorem index_entry (T : NDArrayView) (i : Nat) (hrank : T.shape ≠ [])
    (idx : List Nat) (hidx : List.Forall₂ (fun a b => a < b) idx T.shape.dropLast) :
    (Index T i).entry idx = T.entry (idx ++ [i]) := by
  have hlen : idx.length = T.shape.dropLast.length := List.Forall₂.length_eq hidx
  have hr1 : 1 ≤ T.shape.length := by
    cases hsh : T.shape with
    | nil => exact absurd hsh hrank
    | cons x xs => simp [hsh]
  unfold Index
  by_cases hsp : slicePath T.shape i
  · rw [if_pos hsp]
    simp only [NDArrayView.entry, NDArrayView.SliceView]
    rw [unflatten_flatten idx T.shape.dropLast hidx]
    rw [replicate_set_last T.shape.length i hr1]
    have hlen2 : idx.length = T.shape.length - 1 := by
      rw [hlen, List.length_dropLast]
    rw [zipWith_add_replicate_zero idx (T.shape.length - 1) [i] hlen2]
    have hdl : T.shape.dropLast.length = T.shape.length - 1 := List.length_dropLast _
    rw [hdl, drop_replicate_append]
  · rw [if_neg hsp]
    simp only [NDArrayView.entry, NDArrayView.AsShape]
    rcases (slicePath_false_iff T.shape i).mp (Bool.of_not_eq_true hsp) with ⟨hi0, hlast⟩
    subst hi0
    have hsplit : T.shape.dropLast ++ [T.shape.getLast hrank] = T.shape :=
      List.dropLast_append_getLast hrank
    conv_rhs => rw [← hsplit]
    rw [flatten_append_zero idx T.shape.dropLast (T.shape.getLast hrank) hlen]

/-- Claim C3: for a dense tensor of rank at least 1 and a valid index `i` on its
last axis, `Index` (AxisDrop) returns a view whose shape is the input
shape minus its last axis (on either path), holding the slice of the
input at offset `i` on that axis; the reshape path is taken exactly when
`i = 0` and the last-axis extent is 1. -/
theorem index_axis_drop (T : NDArrayView) (i : Nat)
    (hrank : T.shape ≠ []) (hi : i < T.shape.getLastD 0) :
    (Index T i).shape = T.shape.dropLast
    ∧ (∀ idx, List.Forall₂ (fun a b => a < b) idx T.shape.dropLast →
        (Index T i).entry idx = T.entry (idx ++ [i]))
    ∧ (slicePath T.shape i = false ↔ i = 0 ∧ T.shape.getLastD 0 = 1) := by
  exact ⟨index_shape T i, fun idx hidx => index_entry T i hrank idx hidx,
    slicePath_false_iff T.shape i⟩

theorem index_axis_drop_w :
    (Index t23c 1).shape = [2]
    ∧ (Index t23c 1).entry [1] = t23c.entry [1, 1]
    ∧ (slicePath t23c.shape 1 = false ↔ 1 = 0 ∧ t23c.shape.getLastD 0 = 1) := by
  have h := index_axis_drop t23c 1 (by decide) (by decide)
  exact ⟨h.1, h.2.1 [1] (List.Forall₂.cons (by decide) List.Forall₂.nil), h.2.2⟩

theorem eye_miss_unsupported (n : Nat) (dt : DataType) (dev : Device) (c : EyeCache)
    (hmiss : cacheFind c (n, dt) = none)
    (hf : dt ≠ .Float) (hd : dt ≠ .Double) :
    Eye n dt dev c = .error .UnsupportedTypeError := by
  unfold Eye
  rw [hmiss]
  cases dt with
  | Float => exact absurd rfl hf
  | Double => exact absurd rfl hd
  | Unknown => rfl
  | UChar => rfl
  | Float16 => rfl
  | Int8 => rfl
  | Int16 => rfl

theorem eye_miss_eq (n : Nat) (dt : DataType) (dev : Device) (c : EyeCache)
    (hmiss : cacheFind c (n, dt) = none) (hdt : dt = .Float ∨ dt = .Double) :
    Eye n dt dev c = .ok (MakeEye n dt dev, cacheInsert c (n, dt) (MakeEye n dt dev)) := by
  unfold Eye
  rw [hmiss]
  rcases hdt with h | h <;> subst h <;> rfl

/-- Claim C5: on a cache miss for a supported type, `Eye` builds the identity on
the host (CPU) device — an `n x n` dense buffer, zero-filled except for 1
at each diagonal offset `i*n + i` — deep-copies it to the requested
device, returns that copy and stores it (not the host copy) under the
key `(n, dataType)`. -/
theorem eye_miss_construction (n : Nat) (dt : DataType) (dev : Device) (c : EyeCache)
    (hmiss : cacheFind c (n, dt) = none) (hdt : dt = .Float ∨ dt = .Double) :
    Eye n dt dev c = .ok (MakeEye n dt dev, cacheInsert c (n, dt) (MakeEye n dt dev))
    ∧ MakeEye n dt dev = (hostEye n dt).DeepClone dev
    ∧ (hostEye n dt).device = CPUDevice
    ∧ (hostEye n dt).shape = [n, n]
    ∧ (hostEye n dt).isSparse = false
    ∧ (MakeEye n dt dev).device = dev
    ∧ (∀ i, i < n → (hostEye n dt).flat (i * n + i) = 1)
    ∧ (∀ p, (¬ ∃ i, i < n ∧ p = i * n + i) → (hostEye n dt).flat p = 0)
    ∧ cacheFind (cacheInsert c (n, dt) (MakeEye n dt dev)) (n, dt) =
        some (MakeEye n dt dev) := by
  refine ⟨eye_miss_eq n dt dev c hmiss hdt, rfl, rfl, rfl, rfl, rfl,
    fun i hi => hostEye_flat_diag n dt i hi,
    fun p hp => hostEye_flat_off n dt p hp, ?_⟩
  simp [cacheFind, cacheInsert]

theorem eye_miss_construction_w :
    Eye 2 DataType.Double 7 [] =
      .ok (MakeEye 2 DataType.Double 7,
           cacheInsert [] (2, DataType.Double) (MakeEye 2 DataType.Double 7))
    ∧ (hostEye 2 DataType.Double).device = CPUDevice
    ∧ (MakeEye 2 DataType.Double 7).device = 7
    ∧ (hostEye 2 DataType.Double).flat 3 = 1
    ∧ (hostEye 2 DataType.Double).flat 2 = 0 := by
  have h := eye_miss_construction 2 DataType.Double 7 [] rfl (Or.inr rfl)
  refine ⟨h.1, h.2.2.1, h.2.2.2.2.2.1, ?_, ?_⟩
  · have h1 := h.2.2.2.2.2.2.1 1 (by decide)
    simpa using h1
  · refine h.2.2.2.2.2.2.2.1 2 ?_
    rintro ⟨i, hi, hp⟩
    interval_cases i <;> omega

/-- Claim C4: the cache key is `(n, dataType)` only — after a call with device
`d1` has populated the cache, a later call with any device `d2` (equal to
`d1` or not) returns the stored tensor unchanged with the cache unchanged
(so the tensor is not reconstructed), and that tensor holds the identity
values. -/
theorem eye_cache_device_ignored (n : Nat) (dt : DataType) (d1 d2 : Device)
    (c : EyeCache) (v : NDArrayView) (c1 : EyeCache)
    (hmiss : cacheFind c (n, dt) = none)
    (h1 : Eye n dt d1 c = .ok (v, c1)) :
    Eye n dt d2 c1 = .ok (v, c1)
    ∧ ∀ i j, i < n → j < n → v.entry [i, j] = if i = j then 1 else 0 := by
  have hdt : dt = .Float ∨ dt = .Double := by
    by_contra hcon
    push_neg at hcon
    rw [eye_miss_unsupported n dt d1 c hmiss hcon.1 hcon.2] at h1
    cases h1
  have hmc := eye_miss_eq n dt d1 c hmiss hdt
  rw [hmc] at h1
  obtain ⟨rfl, rfl⟩ : MakeEye n dt d1 = v ∧
      cacheInsert c (n, dt) (MakeEye n dt d1) = c1 := by
    simpa [Prod.ext_iff] using h1
  constructor
  · unfold Eye
    simp [cacheFind, cacheInsert]
  · exact fun i j hi hj => makeEye_entry n dt d1 i j hi hj

theorem eye_cache_device_ignored_w :
    Eye 2 DataType.Float 5 (cacheInsert [] (2, DataType.Float) (MakeEye 2 DataType.Float 3)) =
      .ok (MakeEye 2 DataType.Float 3,
           cacheInsert [] (2, DataType.Float) (MakeEye 2 DataType.Float 3))
    ∧ (MakeEye 2 DataType.Float 3).entry [0, 1] = 0
    ∧ (MakeEye 2 DataType.Float 3).entry [1, 1] = 1 := by
  have h := eye_cache_device_ignored 2 DataType.Float 3 5 [] (MakeEye 2 DataType.Float 3)
    (cacheInsert [] (2, DataType.Float) (MakeEye 2 DataType.Float 3)) rfl rfl
  refine ⟨h.1, ?_, ?_⟩
  · have h1 := h.2 0 1 (by decide) (by decide)
    simpa using h1
  · have h1 := h.2 1 1 (by decide) (by decide)
    simpa using h1

/-- Claim C8: `Eye` succeeds exactly for the supported floating-point element
types: from a well-formed cache it returns a result for `Float` and
`Double`, fails with `UnsupportedTypeError` for every other data type,
and preserves cache well-formedness. -/
theorem eye_supported_types (n : Nat) (dt : DataType) (dev : Device) (c : EyeCache)
    (hWF : cacheWF c) :
    ((dt = .Float ∨ dt = .Double) → ∃ v c1, Eye n dt dev c = .ok (v, c1))
    ∧ (dt ≠ .Float → dt ≠ .Double → Eye n dt dev c = .error .UnsupportedTypeError)
    ∧ (∀ v c1, Eye n dt dev c = .ok (v, c1) → cacheWF c1) := by
  refine ⟨fun hdt => eye_ok_of_supported n dt dev c hdt, ?_, ?_⟩
  · intro hf hd
    have hnone : cacheFind c (n, dt) = none := by
      cases hfind : cacheFind c (n, dt) with
      | none => rfl
      | some v =>
        rcases (hWF _ (cacheFind_mem c (n, dt) v hfind)).1 with h | h
        · exact absurd h hf
        · exact absurd h hd
    exact eye_miss_unsupported n dt dev c hnone hf hd
  · intro v c1 h
    exact (eye_ok_shape n dt dev c v c1 hWF h).2

theorem eye_supported_types_w :
    Eye 3 DataType.Int8 0 [] = .error .UnsupportedTypeError
    ∧ ∃ v c1, Eye 3 DataType.Float 0 [] = .ok (v, c1) := by
  refine ⟨(eye_supported_types 3 DataType.Int8 0 [] cacheWF_nil).2.1
    (by decide) (by decide),
    (eye_supported_types 3 DataType.Float 0 [] cacheWF_nil).1 (Or.inl rfl)⟩

/-- Claim C6: a sparse example `X` with leading dimension `n` is replaced by the
matrix product `Eye(n) x X` (left-multiply, no transpose, scale 1), and on
a cache miss that identity is freshly built; the product is dense, keeps
the shape of `X`, and equals `X` elementwise. -/
theorem densify_identity (d : NDArrayView) (cache : EyeCache) (n : Nat)
    (rest : List Nat) (hsh : d.shape = n :: rest) (hn : 0 < n)
    (hsp : d.isSparse = true)
    (hdt : d.dataType = .Float ∨ d.dataType = .Double)
    (hmiss : cacheFind cache (n, d.dataType) = none) :
    processExample true d cache =
      .ok (MatrixProduct false (MakeEye n d.dataType d.device) false d false 1 1,
           cacheInsert cache (n, d.dataType) (MakeEye n d.dataType d.device))
    ∧ (MatrixProduct false (MakeEye n d.dataType d.device) false d false 1 1).shape
        = d.shape
    ∧ (MatrixProduct false (MakeEye n d.dataType d.device) false d false 1 1).isSparse
        = false
    ∧ ∀ p, (MatrixProduct false (MakeEye n d.dataType d.device) false d false 1 1).flat p
        = d.flat p := by
  have hhead : d.shape.headD 0 = n := by rw [hsh]; rfl
  have heye := eye_miss_eq n d.dataType d.device cache hmiss hdt
  refine ⟨?_, ?_, rfl, ?_⟩
  · show densifyStep d cache = _
    unfold densifyStep
    rw [hsp, hhead]
    simp only [heye]
    simp
  · show (MakeEye n d.dataType d.device).shape.headD 0 :: d.shape.tail = d.shape
    rw [hsh]
    rfl
  · intro p
    show (1 : ℚ) * sumTo (d.shape.headD 0)
        (fun j => (MakeEye n d.dataType d.device).entry
          [p % (MakeEye n d.dataType d.device).shape.headD 0, j]
          * d.flat (j + d.shape.headD 0 * (p / (MakeEye n d.dataType d.device).shape.headD 0)))
      = d.flat p
    have hA : (MakeEye n d.dataType d.device).shape.headD 0 = n := rfl
    rw [hA, hhead, one_mul]
    have hpn : p % n < n := Nat.mod_lt p hn
    rw [sumTo_congr n _
      (fun j => (if p % n = j then (1 : ℚ) else 0) * d.flat (j + n * (p / n)))
      (fun j hj => by rw [makeEye_entry n d.dataType d.device (p % n) j hpn hj])]
    rw [sumTo_delta n (p % n) (fun j => d.flat (j + n * (p / n))) hpn]
    rw [Nat.mod_add_div p n]

theorem densify_identity_w :
    processExample true sp23 [] =
      .ok (MatrixProduct false (MakeEye 2 DataType.Float 4) false sp23 false 1 1,
           cacheInsert [] (2, DataType.Float) (MakeEye 2 DataType.Float 4))
    ∧ (MatrixProduct false (MakeEye 2 DataType.Float 4) false sp23 false 1 1).shape
        = sp23.shape
    ∧ (MatrixProduct false (MakeEye 2 DataType.Float 4) false sp23 false 1 1).flat 5
        = sp23.flat 5 := by
  have h := densify_identity sp23 [] 2 [3] rfl (by decide) rfl (Or.inl rfl) rfl
  exact ⟨h.1, h.2.1, h.2.2.2 5⟩

theorem densifyStep_error (d : NDArrayView) (c : EyeCache) (e : CNTKError)
    (h : densifyStep d c = .error e) : e = .UnsupportedTypeError := by
  unfold densifyStep at h
  by_cases hsp : d.isSparse
  · rw [if_pos hsp] at h
    cases heye : Eye (d.shape.headD 0) d.dataType d.device c with
    | error e1 =>
      rw [heye] at h
      cases h
      exact eye_error _ _ _ _ _ heye
    | ok r =>
      obtain ⟨eye, c1⟩ := r
      rw [heye] at h
      cases h
  · rw [if_neg hsp] at h
    cases h

theorem densifyStep_ok_of_supported (d : NDArrayView) (c : EyeCache)
    (hdt : d.isSparse = true → d.dataType = .Float ∨ d.dataType = .Double) :
    ∃ d1 c1, densifyStep d c = .ok (d1, c1) := by
  unfold densifyStep
  by_cases hsp : d.isSparse
  · rw [if_pos hsp]
    obtain ⟨v, c1, hv⟩ := eye_ok_of_supported (d.shape.headD 0) d.dataType d.device c (hdt hsp)
    rw [hv]
    exact ⟨_, _, rfl⟩
  · rw [if_neg hsp]
    exact ⟨_, _, rfl⟩

theorem processExample_error_kind (hasAxis : Bool) (d : NDArrayView) (c : EyeCache)
    (e : CNTKError) (h : processExample hasAxis d c = .error e) :
    e = .MalformedStreamError ∨ e = .UnsupportedTypeError := by
  unfold processExample at h
  by_cases ha : hasAxis
  · rw [if_pos ha] at h
    exact Or.inr (densifyStep_error d c e h)
  · rw [if_neg ha] at h
    by_cases ht : d.shape.getLastD 0 ≠ 1
    · rw [if_pos ht] at h
      cases h
      exact Or.inl rfl
    · rw [if_neg ht] at h
      exact Or.inr (densifyStep_error (Index d 0) c e h)

theorem processExample_ok_of_clean (hasAxis : Bool) (d : NDArrayView) (c : EyeCache)
    (hc : exampleClean hasAxis d) :
    ∃ d1 c1, processExample hasAxis d c = .ok (d1, c1) := by
  obtain ⟨h1, h2⟩ := hc
  unfold processExample
  by_cases ha : hasAxis
  · rw [if_pos ha]
    exact densifyStep_ok_of_supported d c h2
  · rw [if_neg ha]
    have hlast : d.shape.getLastD 0 = 1 := by
      rcases h1 with h | h
      · exact absurd h (by simpa using ha)
      · exact h
    rw [if_neg (show ¬ d.shape.getLastD 0 ≠ 1 from fun hcon => hcon hlast)]
    refine densifyStep_ok_of_supported (Index d 0) c ?_
    rw [index_isSparse, index_dataType]
    exact h2

theorem densifyStep_ok_WF (d : NDArrayView) (c : EyeCache) (d1 : NDArrayView)
    (c1 : EyeCache) (hWF : cacheWF c) (h : densifyStep d c = .ok (d1, c1)) :
    cacheWF c1 := by
  unfold densifyStep at h
  by_cases hsp : d.isSparse
  · rw [if_pos hsp] at h
    cases heye : Eye (d.shape.headD 0) d.dataType d.device c with
    | error e1 => rw [heye] at h; cases h
    | ok r =>
      obtain ⟨eye, c2⟩ := r
      rw [heye] at h
      cases h
      exact (eye_ok_shape _ _ _ _ _ _ hWF heye).2
  · rw [if_neg hsp] at h
    cases h
    exact hWF

theorem processExample_ok_WF (hasAxis : Bool) (d : NDArrayView) (c : EyeCache)
    (d1 : NDArrayView) (c1 : EyeCache) (hWF : cacheWF c)
    (h : processExample hasAxis d c = .ok (d1, c1)) : cacheWF c1 := by
  unfold processExample at h
  by_cases ha : hasAxis
  · rw [if_pos ha] at h
    exact densifyStep_ok_WF d c d1 c1 hWF h
  · rw [if_neg ha] at h
    by_cases ht : d.shape.getLastD 0 ≠ 1
    · rw [if_pos ht] at h
      cases h
    · rw [if_neg ht] at h
      exact densifyStep_ok_WF (Index d 0) c d1 c1 hWF h

theorem densifyStep_ok_shape (d : NDArrayView) (c : EyeCache) (d1 : NDArrayView)
    (c1 : EyeCache) (hWF : cacheWF c) (hne : d.shape ≠ [])
    (h : densifyStep d c = .ok (d1, c1)) : d1.shape = d.shape := by
  unfold densifyStep at h
  by_cases hsp : d.isSparse
  · rw [if_pos hsp] at h
    cases heye : Eye (d.shape.headD 0) d.dataType d.device c with
    | error e1 => rw [heye] at h; cases h
    | ok r =>
      obtain ⟨eye, c2⟩ := r
      rw [heye] at h
      cases h
      have hes := (eye_ok_shape _ _ _ _ _ _ hWF heye).1
      show eye.shape.headD 0 :: d.shape.tail = d.shape
      rw [hes]
      obtain ⟨x, t, hxt⟩ := List.exists_cons_of_ne_nil hne
      rw [hxt]
      rfl
  · rw [if_neg hsp] at h
    cases h
    rfl

/-- The per-example shape law used by C7 and C9: a successfully processed
non-sequential example loses exactly its trailing axis. -/
theorem processExample_ok_shape (d : NDArrayView) (c : EyeCache)
    (d1 : NDArrayView) (c1 : EyeCache) (hWF : cacheWF c)
    (hrk : d.isSparse = true → 2 ≤ d.shape.length)
    (h : processExample false d c = .ok (d1, c1)) :
    d1.shape = d.shape.dropLast := by
  unfold processExample at h
  rw [if_neg (by simp)] at h
  by_cases ht : d.shape.getLastD 0 ≠ 1
  · rw [if_pos ht] at h
    cases h
  · rw [if_neg ht] at h
    by_cases hsp : d.isSparse
    · have hlen : 2 ≤ d.shape.length := hrk hsp
      have hne : (Index d 0).shape ≠ [] := by
        rw [index_shape]
        have := List.length_dropLast d.shape
        intro hnil
        rw [hnil] at this
        simp at this
        omega
      have := densifyStep_ok_shape (Index d 0) c d1 c1 hWF hne h
      rw [this, index_shape]
    · have hne2 : ¬ (Index d 0).isSparse = true := by
        rw [index_isSparse]
        simpa using hsp
      unfold densifyStep at h
      rw [if_neg hne2] at h
      cases h
      rw [index_shape]

/-- Claim C7: for a non-sequential argument (`sequenceFlags[i]` false, so the
variable has a single dynamic axis), each unpacked example with trailing
dimension other than 1 fails the call with `MalformedStreamError`; with
trailing dimension 1 the example is stored as `Index(example, 0)` (for a
dense example, with the cache untouched), so its stored shape is the
unpacked shape minus the trailing axis. -/
theorem nonseq_trailing_check (d : NDArrayView) (cache : EyeCache) :
    hasAxisFor false = false
    ∧ (d.shape.getLastD 0 ≠ 1 →
        processExample (hasAxisFor false) d cache = .error .MalformedStreamError)
    ∧ (d.shape.getLastD 0 = 1 → d.isSparse = false →
        processExample (hasAxisFor false) d cache = .ok (Index d 0, cache))
    ∧ (d.shape.getLastD 0 = 1 → cacheWF cache →
        (d.isSparse = true → 2 ≤ d.shape.length) →
        ∀ d1 c1, processExample (hasAxisFor false) d cache = .ok (d1, c1) →
          d1.shape = d.shape.dropLast) := by
  refine ⟨rfl, ?_, ?_, ?_⟩
  · intro ht
    show processExample false d cache = _
    unfold processExample
    rw [if_neg (by simp), if_pos ht]
  · intro ht hsp
    show processExample false d cache = _
    unfold processExample
    rw [if_neg (by simp), if_neg (show ¬ d.shape.getLastD 0 ≠ 1 from fun hcon => hcon ht)]
    unfold densifyStep
    rw [if_neg (by rw [index_isSparse]; simp [hsp])]
  · intro ht hWF hrk d1 c1 h
    exact processExample_ok_shape d cache d1 c1 hWF hrk h

theorem nonseq_trailing_check_w :
    processExample (hasAxisFor false) mal2 [] = .error .MalformedStreamError
    ∧ processExample (hasAxisFor false) nt1 [] = .ok (Index nt1 0, [])
    ∧ (Index nt1 0).shape = [3] := by
  refine ⟨(nonseq_trailing_check mal2 []).2.1 (by decide),
    (nonseq_trailing_check nt1 []).2.2.1 (by decide) (by decide), ?_⟩
  have h := (nonseq_trailing_check nt1 []).2.2.2 (by decide) cacheWF_nil
    (by decide) (Index nt1 0) [] ((nonseq_trailing_check nt1 []).2.2.1 (by decide) (by decide))
  simpa using h

theorem getD_set_ne {α : Type} (l : List α) (i j : Nat) (a d : α) (h : i ≠ j) :
    (l.set i a).getD j d = l.getD j d := by
  induction l generalizing i j with
  | nil => rfl
  | cons x xs ih =>
    cases i with
    | zero =>
      cases j with
      | zero => omega
      | succ j1 => simp [List.set, List.getD_cons_succ]
    | succ i1 =>
      cases j with
      | zero => simp [List.set, List.getD_cons_zero]
      | succ j1 =>
        simp only [List.set, List.getD_cons_succ]
        exact ih i1 j1 (by omega)

theorem getD_set_eq {α : Type} (l : List α) (i : Nat) (a d : α) (h : i < l.length) :
    (l.set i a).getD i d = a := by
  induction l generalizing i with
  | nil => simp at h
  | cons x xs ih =>
    cases i with
    | zero => rfl
    | succ i1 =>
      simp only [List.set, List.getD_cons_succ]
      exact ih i1 (by simpa using h)

theorem getD_mem {α : Type} (l : List α) (s : Nat) (d : α) (h : s < l.length) :
    l.getD s d ∈ l := by
  induction l generalizing s with
  | nil => simp at h
  | cons x xs ih =>
    cases s with
    | zero => simp [List.getD_cons_zero]
    | succ s1 =>
      simp only [List.getD_cons_succ]
      exact List.mem_cons_of_mem _ (ih s1 (by simpa using h))

theorem getD_replicate {α : Type} (n k : Nat) (d : α) :
    (List.replicate n d).getD k d = d := by
  induction n generalizing k with
  | zero => rfl
  | succ m ih =>
    cases k with
    | zero => rfl
    | succ k1 => simpa [List.replicate, List.getD_cons_succ] using ih k1

theorem getD_append_len {α : Type} (l t : List α) (d : α) (k : Nat) :
    (l ++ t).getD (l.length + k) d = t.getD k d := by
  induction l with
  | nil => simp
  | cons x xs ih => simpa [List.getD_cons_succ, Nat.succ_add] using ih

theorem getD_map_range {α : Type} (n s : Nat) (f : Nat → α) (d : α) (h : s < n) :
    ((List.range n).map f).getD s d = f s := by
  rw [List.getD_eq_getElem?_getD, List.getElem?_map, List.getElem?_range h]
  rfl

theorem seqLoop_error_kind (hA : Bool) (seqs : List NDArrayView) :
    ∀ idxs arg c e, (seqLoop hA seqs idxs arg c).1 = .error e →
      e = .MalformedStreamError ∨ e = .UnsupportedTypeError := by
  intro idxs
  induction idxs with
  | nil =>
    intro arg c e h
    cases h
  | cons s rest ih =>
    intro arg c e h
    unfold seqLoop at h
    cases hpe : processExample hA (seqs.getD s defaultNDArrayView) c with
    | error e1 =>
      rw [hpe] at h
      cases h
      exact processExample_error_kind hA _ c e hpe
    | ok r =>
      obtain ⟨d, c1⟩ := r
      rw [hpe] at h
      exact ih (arg.set s ⟨d⟩) c1 e h

theorem seqLoop_ok_of_clean (hA : Bool) (seqs : List NDArrayView) :
    ∀ idxs arg c, (∀ s ∈ idxs, exampleClean hA (seqs.getD s defaultNDArrayView)) →
      ∃ arg1 c1, seqLoop hA seqs idxs arg c = (.ok (), arg1, c1) := by
  intro idxs
  induction idxs with
  | nil =>
    intro arg c _
    exact ⟨arg, c, rfl⟩
  | cons s rest ih =>
    intro arg c hclean
    obtain ⟨d, c1, hpe⟩ := processExample_ok_of_clean hA (seqs.getD s defaultNDArrayView) c
      (hclean s (List.mem_cons_self s rest))
    obtain ⟨arg1, c2, hrec⟩ := ih (arg.set s ⟨d⟩) c1
      (fun s1 hs1 => hclean s1 (List.mem_cons_of_mem s hs1))
    refine ⟨arg1, c2, ?_⟩
    unfold seqLoop
    rw [hpe]
    exact hrec

theorem seqLoop_length (hA : Bool) (seqs : List NDArrayView) :
    ∀ idxs arg c, (seqLoop hA seqs idxs arg c).2.1.length = arg.length := by
  intro idxs
  induction idxs with
  | nil => intro arg c; rfl
  | cons s rest ih =>
    intro arg c
    unfold seqLoop
    cases hpe : processExample hA (seqs.getD s defaultNDArrayView) c with
    | error e => rfl
    | ok r =>
      obtain ⟨d, c1⟩ := r
      rw [ih (arg.set s ⟨d⟩) c1, List.length_set]

theorem seqLoop_not_mem (hA : Bool) (seqs : List NDArrayView) :
    ∀ idxs arg c s, s ∉ idxs →
      (seqLoop hA seqs idxs arg c).2.1.getD s defaultConstant
        = arg.getD s defaultConstant := by
  intro idxs
  induction idxs with
  | nil => intro arg c s _; rfl
  | cons s0 rest ih =>
    intro arg c s hs
    unfold seqLoop
    cases hpe : processExample hA (seqs.getD s0 defaultNDArrayView) c with
    | error e => rfl
    | ok r =>
      obtain ⟨d, c1⟩ := r
      rw [ih (arg.set s0 ⟨d⟩) c1 s (fun h => hs (List.mem_cons_of_mem s0 h))]
      exact getD_set_ne arg s0 s ⟨d⟩ defaultConstant
        (fun h => hs (h ▸ List.mem_cons_self s0 rest))

theorem seqLoop_ok_entries (hA : Bool) (seqs : List NDArrayView) :
    ∀ idxs arg c, idxs.Nodup → cacheWF c →
      (seqLoop hA seqs idxs arg c).1 = .ok () →
      cacheWF (seqLoop hA seqs idxs arg c).2.2
      ∧ ∀ s ∈ idxs, s < arg.length →
          ∃ d1 c1 c2, cacheWF c1
            ∧ processExample hA (seqs.getD s defaultNDArrayView) c1 = .ok (d1, c2)
            ∧ (seqLoop hA seqs idxs arg c).2.1.getD s defaultConstant = ⟨d1⟩ := by
  intro idxs
  induction idxs with
  | nil =>
    intro arg c _ hWF _
    refine ⟨hWF, ?_⟩
    intro s hs
    simp at hs
  | cons s0 rest ih =>
    intro arg c hnd hWF hok
    have hnd0 : s0 ∉ rest := (List.nodup_cons.mp hnd).1
    have hndr : rest.Nodup := (List.nodup_cons.mp hnd).2
    unfold seqLoop at hok ⊢
    cases hpe : processExample hA (seqs.getD s0 defaultNDArrayView) c with
    | error e =>
      rw [hpe] at hok
      cases hok
    | ok r =>
      obtain ⟨d, c1⟩ := r
      simp only [hpe] at hok ⊢
      have hWF1 : cacheWF c1 := processExample_ok_WF hA _ c d c1 hWF hpe
      obtain ⟨hWFf, hent⟩ := ih (arg.set s0 ⟨d⟩) c1 hndr hWF1 hok
      refine ⟨hWFf, ?_⟩
      intro s hs hlen
      rcases List.mem_cons.mp hs with h1 | h1
      · subst h1
        refine ⟨d, c, c1, hWF, hpe, ?_⟩
        rw [seqLoop_not_mem hA seqs rest (arg.set s ⟨d⟩) c1 s hnd0]
        exact getD_set_eq arg s ⟨d⟩ defaultConstant hlen
      · obtain ⟨d1, c2, c3, hW, hp, he⟩ := hent s h1 (by rw [List.length_set]; exact hlen)
        exact ⟨d1, c2, c3, hW, hp, he⟩

theorem argLoop_cons (dev : Device) (flags : List Bool) (v : Value)
    (rest : List Value) (i ns : Nat) (res : List (List Constant)) (c : EyeCache) :
    argLoop dev flags (v :: rest) i ns res c =
      if ns ≠ 0 ∧ ns ≠ (UnpackVariableValue v dev).length then
        (.error .BatchShapeMismatchError, res, c)
      else
        match seqLoop (hasAxisFor (flags.getD i false)) (UnpackVariableValue v dev)
            (List.range (if ns = 0 then (UnpackVariableValue v dev).length else ns))
            (List.replicate (if ns = 0 then (UnpackVariableValue v dev).length else ns)
              defaultConstant) c with
        | (.error e, argPartial, c1) => (.error e, res.set i argPartial, c1)
        | (.ok _, argFull, c1) =>
          argLoop dev flags rest (i + 1)
            (if ns = 0 then (UnpackVariableValue v dev).length else ns)
            (res.set i argFull) c1 := rfl

theorem argLoop_step_mismatch (dev : Device) (flags : List Bool) (v : Value)
    (rest : List Value) (i ns : Nat) (res : List (List Constant)) (c : EyeCache)
    (hchk : ns ≠ 0 ∧ ns ≠ (UnpackVariableValue v dev).length) :
    argLoop dev flags (v :: rest) i ns res c
      = (.error .BatchShapeMismatchError, res, c) := by
  rw [argLoop_cons, if_pos hchk]

theorem argLoop_step_error (dev : Device) (flags : List Bool) (v : Value)
    (rest : List Value) (i ns : Nat) (res : List (List Constant)) (c : EyeCache)
    (e : CNTKError) (argP : List Constant) (c1 : EyeCache)
    (hchk : ¬ (ns ≠ 0 ∧ ns ≠ (UnpackVariableValue v dev).length))
    (hseq : seqLoop (hasAxisFor (flags.getD i false)) (UnpackVariableValue v dev)
        (List.range (if ns = 0 then (UnpackVariableValue v dev).length else ns))
        (List.replicate (if ns = 0 then (UnpackVariableValue v dev).length else ns)
          defaultConstant) c = (.error e, argP, c1)) :
    argLoop dev flags (v :: rest) i ns res c = (.error e, res.set i argP, c1) := by
  rw [argLoop_cons, if_neg hchk, hseq]

theorem argLoop_step_ok (dev : Device) (flags : List Bool) (v : Value)
    (rest : List Value) (i ns : Nat) (res : List (List Constant)) (c : EyeCache)
    (u : Unit) (argF : List Constant) (c1 : EyeCache)
    (hchk : ¬ (ns ≠ 0 ∧ ns ≠ (UnpackVariableValue v dev).length))
    (hseq : seqLoop (hasAxisFor (flags.getD i false)) (UnpackVariableValue v dev)
        (List.range (if ns = 0 then (UnpackVariableValue v dev).length else ns))
        (List.replicate (if ns = 0 then (UnpackVariableValue v dev).length else ns)
          defaultConstant) c = (.ok u, argF, c1)) :
    argLoop dev flags (v :: rest) i ns res c =
      argLoop dev flags rest (i + 1)
        (if ns = 0 then (UnpackVariableValue v dev).length else ns)
        (res.set i argF) c1 := by
  rw [argLoop_cons, if_neg hchk, hseq]

theorem argLoop_res_length (dev : Device) (flags : List Bool) :
    ∀ inputs i ns res c,
      (argLoop dev flags inputs i ns res c).2.1.length = res.length := by
  intro inputs
  induction inputs with
  | nil => intro i ns res c; rfl
  | cons v rest ih =>
    intro i ns res c
    by_cases hchk : ns ≠ 0 ∧ ns ≠ (UnpackVariableValue v dev).length
    · rw [argLoop_step_mismatch dev flags v rest i ns res c hchk]
    · rcases hseq : seqLoop (hasAxisFor (flags.getD i false)) (UnpackVariableValue v dev)
          (List.range (if ns = 0 then (UnpackVariableValue v dev).length else ns))
          (List.replicate (if ns = 0 then (UnpackVariableValue v dev).length else ns)
            defaultConstant) c with ⟨st, argX, cX⟩
      cases st with
      | error e =>
        rw [argLoop_step_error dev flags v rest i ns res c e argX cX hchk hseq]
        simp [List.length_set]
      | ok u =>
        rw [argLoop_step_ok dev flags v rest i ns res c u argX cX hchk hseq, ih]
        simp [List.length_set]

theorem argLoop_preserves_lt (dev : Device) (flags : List Bool) :
    ∀ inputs i ns res c k, k < i →
      (argLoop dev flags inputs i ns res c).2.1.getD k []
        = res.getD k [] := by
  intro inputs
  induction inputs with
  | nil => intro i ns res c k _; rfl
  | cons v rest ih =>
    intro i ns res c k hk
    by_cases hchk : ns ≠ 0 ∧ ns ≠ (UnpackVariableValue v dev).length
    · rw [argLoop_step_mismatch dev flags v rest i ns res c hchk]
    · rcases hseq : seqLoop (hasAxisFor (flags.getD i false)) (UnpackVariableValue v dev)
          (List.range (if ns = 0 then (UnpackVariableValue v dev).length else ns))
          (List.replicate (if ns = 0 then (UnpackVariableValue v dev).length else ns)
            defaultConstant) c with ⟨st, argX, cX⟩
      cases st with
      | error e =>
        rw [argLoop_step_error dev flags v rest i ns res c e argX cX hchk hseq]
        exact getD_set_ne res i k argX [] (by omega)
      | ok u =>
        rw [argLoop_step_ok dev flags v rest i ns res c u argX cX hchk hseq,
          ih (i + 1) (if ns = 0 then (UnpackVariableValue v dev).length else ns)
            (res.set i argX) cX k (by omega)]
        exact getD_set_ne res i k argX [] (by omega)

theorem argLoop_no_batch_error (dev : Device) (flags : List Bool) :
    ∀ inputs i ns res c cnt,
      (∀ v ∈ inputs, (UnpackVariableValue v dev).length = cnt) →
      (ns = 0 ∨ ns = cnt) →
      (argLoop dev flags inputs i ns res c).1 ≠ .error .BatchShapeMismatchError := by
  intro inputs
  induction inputs with
  | nil =>
    intro i ns res c cnt _ _ h
    cases h
  | cons v rest ih =>
    intro i ns res c cnt hcnt hns
    have hv : (UnpackVariableValue v dev).length = cnt :=
      hcnt v (List.mem_cons_self v rest)
    have hchk : ¬ (ns ≠ 0 ∧ ns ≠ (UnpackVariableValue v dev).length) := by
      rw [hv]
      rcases hns with h | h
      · intro hc
        exact hc.1 h
      · intro hc
        exact hc.2 h
    rcases hseq : seqLoop (hasAxisFor (flags.getD i false)) (UnpackVariableValue v dev)
        (List.range (if ns = 0 then (UnpackVariableValue v dev).length else ns))
        (List.replicate (if ns = 0 then (UnpackVariableValue v dev).length else ns)
          defaultConstant) c with ⟨st, argX, cX⟩
    cases st with
    | error e =>
      rw [argLoop_step_error dev flags v rest i ns res c e argX cX hchk hseq]
      intro hcon
      have he : (seqLoop (hasAxisFor (flags.getD i false)) (UnpackVariableValue v dev)
          (List.range (if ns = 0 then (UnpackVariableValue v dev).length else ns))
          (List.replicate (if ns = 0 then (UnpackVariableValue v dev).length else ns)
            defaultConstant) c).1 = .error e := by
        rw [hseq]
      have hkind := seqLoop_error_kind _ _ _ _ _ _ he
      have heb : e = CNTKError.BatchShapeMismatchError := by
        cases hcon
        rfl
      rcases hkind with h | h <;> simp [heb] at h
    | ok u =>
      rw [argLoop_step_ok dev flags v rest i ns res c u argX cX hchk hseq]
      refine ih (i + 1) _ (res.set i argX) cX cnt
        (fun w hw => hcnt w (List.mem_cons_of_mem v hw)) ?_
      by_cases h0 : ns = 0
      · rw [if_pos h0, hv]
        exact Or.inr rfl
      · rw [if_neg h0]
        rcases hns with h | h
        · exact absurd h h0
        · exact Or.inr h

theorem argLoop_mismatch (dev : Device) (flags : List Bool) :
    ∀ inputs i ns res c,
      ns ≠ 0 →
      (∀ k, k < inputs.length →
        ∀ d ∈ UnpackVariableValue (inputs.getD k defaultValue) dev,
          exampleClean (hasAxisFor (flags.getD (i + k) false)) d) →
      (∃ v ∈ inputs, (UnpackVariableValue v dev).length ≠ ns) →
      (argLoop dev flags inputs i ns res c).1 = .error .BatchShapeMismatchError := by
  intro inputs
  induction inputs with
  | nil =>
    intro i ns res c _ _ hex
    obtain ⟨v, hv, _⟩ := hex
    simp at hv
  | cons v rest ih =>
    intro i ns res c hns hclean hex
    by_cases hv : (UnpackVariableValue v dev).length = ns
    · have hchk : ¬ (ns ≠ 0 ∧ ns ≠ (UnpackVariableValue v dev).length) := by
        rw [hv]
        intro hc
        exact hc.2 rfl
      have hns1 : (if ns = 0 then (UnpackVariableValue v dev).length else ns) = ns := by
        rw [if_neg hns]
      have hcleanv : ∀ s ∈ List.range
          (if ns = 0 then (UnpackVariableValue v dev).length else ns),
          exampleClean (hasAxisFor (flags.getD i false))
            ((UnpackVariableValue v dev).getD s defaultNDArrayView) := by
        intro s hs
        have hslen : s < (UnpackVariableValue v dev).length := by
          rw [hv]
          rw [hns1] at hs
          exact List.mem_range.mp hs
        have hd := hclean 0 (by simp) ((UnpackVariableValue v dev).getD s defaultNDArrayView)
        simp only [Nat.add_zero, List.getD_cons_zero] at hd
        exact hd (getD_mem _ s defaultNDArrayView hslen)
      obtain ⟨arg1, c1, hseq⟩ := seqLoop_ok_of_clean (hasAxisFor (flags.getD i false))
        (UnpackVariableValue v dev)
        (List.range (if ns = 0 then (UnpackVariableValue v dev).length else ns))
        (List.replicate (if ns = 0 then (UnpackVariableValue v dev).length else ns)
          defaultConstant) c hcleanv
      rw [argLoop_step_ok dev flags v rest i ns res c () arg1 c1 hchk hseq, hns1]
      refine ih (i + 1) ns (res.set i arg1) c1 hns ?_ ?_
      · intro k hk d hd
        have hc := hclean (k + 1) (by simpa using Nat.succ_lt_succ hk) d
          (by simpa [List.getD_cons_succ] using hd)
        have harith : i + (k + 1) = i + 1 + k := by omega
        rw [harith] at hc
        exact hc
      · obtain ⟨w, hw, hwne⟩ := hex
        rcases List.mem_cons.mp hw with h1 | h1
        · subst h1
          exact absurd hv hwne
        · exact ⟨w, h1, hwne⟩
    · rw [argLoop_step_mismatch dev flags v rest i ns res c ⟨hns, fun h => hv h.symm⟩]

theorem argLoop_error_tail (dev : Device) (flags : List Bool) :
    ∀ inputs i ns res c e,
      (argLoop dev flags inputs i ns res c).1 = .error e →
      ∃ j, i ≤ j ∧ j < i + inputs.length ∧ ∀ k, j < k →
        (argLoop dev flags inputs i ns res c).2.1.getD k []
          = res.getD k [] := by
  intro inputs
  induction inputs with
  | nil =>
    intro i ns res c e h
    cases h
  | cons v rest ih =>
    intro i ns res c e h
    by_cases hchk : ns ≠ 0 ∧ ns ≠ (UnpackVariableValue v dev).length
    · rw [argLoop_step_mismatch dev flags v rest i ns res c hchk]
      exact ⟨i, Nat.le_refl i, by simp, fun k _ => rfl⟩
    · rcases hseq : seqLoop (hasAxisFor (flags.getD i false)) (UnpackVariableValue v dev)
          (List.range (if ns = 0 then (UnpackVariableValue v dev).length else ns))
          (List.replicate (if ns = 0 then (UnpackVariableValue v dev).length else ns)
            defaultConstant) c with ⟨st, argX, cX⟩
      cases st with
      | error e1 =>
        rw [argLoop_step_error dev flags v rest i ns res c e1 argX cX hchk hseq]
        refine ⟨i, Nat.le_refl i, by simp, fun k hk => ?_⟩
        exact getD_set_ne res i k argX [] (by omega)
      | ok u =>
        rw [argLoop_step_ok dev flags v rest i ns res c u argX cX hchk hseq] at h ⊢
        obtain ⟨j, hij, hjlt, hpres⟩ := ih (i + 1) _ (res.set i argX) cX e h
        refine ⟨j, by omega, ?_, fun k hk => ?_⟩
        · simp only [List.length_cons]
          omega
        · rw [hpres k hk]
          exact getD_set_ne res i k argX [] (by omega)

theorem argLoop_ok_slot (dev : Device) (flags : List Bool) :
    ∀ inputs i ns res c k,
      cacheWF c → k < inputs.length →
      (argLoop dev flags inputs i ns res c).1 = .ok () →
      i + inputs.length ≤ res.length →
      ((argLoop dev flags inputs i ns res c).2.1.getD (i + k) []).length
          = (UnpackVariableValue (inputs.getD k defaultValue) dev).length
      ∧ ∀ s, s < (UnpackVariableValue (inputs.getD k defaultValue) dev).length →
          ∃ d1 c1 c2, cacheWF c1
            ∧ processExample (hasAxisFor (flags.getD (i + k) false))
                ((UnpackVariableValue (inputs.getD k defaultValue) dev).getD s
                  defaultNDArrayView) c1
                = .ok (d1, c2)
            ∧ ((argLoop dev flags inputs i ns res c).2.1.getD (i + k) []).getD s
                defaultConstant = ⟨d1⟩ := by
  intro inputs
  induction inputs with
  | nil =>
    intro i ns res c k _ hk
    simp at hk
  | cons v rest ih =>
    intro i ns res c k hWF hk hok hres
    by_cases hchk : ns ≠ 0 ∧ ns ≠ (UnpackVariableValue v dev).length
    · rw [argLoop_step_mismatch dev flags v rest i ns res c hchk] at hok
      cases hok
    · have hns1 : (if ns = 0 then (UnpackVariableValue v dev).length else ns)
          = (UnpackVariableValue v dev).length := by
        by_cases h0 : ns = 0
        · rw [if_pos h0]
        · rw [if_neg h0]
          rcases Decidable.not_and_iff_or_not.mp hchk with h | h
          · exact absurd h0 (by simpa using h)
          · simpa using h
      rcases hseq : seqLoop (hasAxisFor (flags.getD i false)) (UnpackVariableValue v dev)
          (List.range (if ns = 0 then (UnpackVariableValue v dev).length else ns))
          (List.replicate (if ns = 0 then (UnpackVariableValue v dev).length else ns)
            defaultConstant) c with ⟨st, argX, cX⟩
      cases st with
      | error e =>
        rw [argLoop_step_error dev flags v rest i ns res c e argX cX hchk hseq] at hok
        cases hok
      | ok u =>
        rw [argLoop_step_ok dev flags v rest i ns res c u argX cX hchk hseq] at hok ⊢
        have hseq1 : (seqLoop (hasAxisFor (flags.getD i false)) (UnpackVariableValue v dev)
            (List.range (if ns = 0 then (UnpackVariableValue v dev).length else ns))
            (List.replicate (if ns = 0 then (UnpackVariableValue v dev).length else ns)
              defaultConstant) c).1 = .ok () := by
          rw [hseq]
        obtain ⟨hWFX, hentX⟩ := seqLoop_ok_entries (hasAxisFor (flags.getD i false))
          (UnpackVariableValue v dev)
          (List.range (if ns = 0 then (UnpackVariableValue v dev).length else ns))
          (List.replicate (if ns = 0 then (UnpackVariableValue v dev).length else ns)
            defaultConstant) c (List.nodup_range _) hWF hseq1
        rw [hseq] at hWFX hentX
        have hargXlen : argX.length = (UnpackVariableValue v dev).length := by
          have hl := seqLoop_length (hasAxisFor (flags.getD i false))
            (UnpackVariableValue v dev)
            (List.range (if ns = 0 then (UnpackVariableValue v dev).length else ns))
            (List.replicate (if ns = 0 then (UnpackVariableValue v dev).length else ns)
              defaultConstant) c
          rw [hseq] at hl
          simpa [hns1] using hl
        cases k with
        | zero =>
          have hfinal : (argLoop dev flags rest (i + 1)
              (if ns = 0 then (UnpackVariableValue v dev).length else ns)
              (res.set i argX) cX).2.1.getD i [] = argX := by
            rw [argLoop_preserves_lt dev flags rest (i + 1) _ (res.set i argX) cX i
              (Nat.lt_succ_self i)]
            refine getD_set_eq res i argX [] ?_
            simp only [List.length_cons] at hres
            omega
          simp only [Nat.add_zero, List.getD_cons_zero]
          rw [hfinal]
          refine ⟨hargXlen, ?_⟩
          intro s hs
          obtain ⟨d1, c1, c2, hW, hp, he⟩ := hentX s
            (by rw [List.mem_range, hns1]; exact hs)
            (by rw [List.length_replicate, hns1]; exact hs)
          exact ⟨d1, c1, c2, hW, hp, he⟩
        | succ k1 =>
          have hrec := ih (i + 1) _ (res.set i argX) cX k1 hWFX
            (by simpa using Nat.lt_of_succ_lt_succ hk) hok
            (by rw [List.length_set]; simp only [List.length_cons] at hres; omega)
          have harith : i + 1 + k1 = i + (k1 + 1) := by omega
          rw [harith] at hrec
          simpa [List.getD_cons_succ] using hrec

theorem fromCNTKMB_def (res : List (List Constant)) (inputs : List Value)
    (flags : List Bool) (dev : Device) (c : EyeCache) :
    FromCNTKMB res inputs flags dev c =
      argLoop dev flags inputs 0 0 (List.replicate inputs.length []) c := by
  show argLoop dev flags inputs 0 0 (vecResize (vecClear res) inputs.length []) c = _
  simp [vecClear, vecResize]

/-- Claim C10: `FromCNTKMB` clears its `res` out-parameter on entry and resizes
it to one slot per argument, so two calls that differ only in the initial
contents of `res` return identical results, and the final `res` always has
exactly `inputs.length` entries. -/
theorem fromCNTKMB_output_independent (res0 res1 : List (List Constant))
    (inputs : List Value) (flags : List Bool) (dev : Device) (c : EyeCache) :
    FromCNTKMB res0 inputs flags dev c = FromCNTKMB res1 inputs flags dev c
    ∧ (FromCNTKMB res0 inputs flags dev c).2.1.length = inputs.length := by
  refine ⟨rfl, ?_⟩
  rw [fromCNTKMB_def, argLoop_res_length, List.length_replicate]

/-- Claim C1 counterexample: when the first argument unpacks to zero sequences,
`numSeq` is not recorded from it — a second argument with a different
nonzero count (3, differing from the recorded 0) does not raise
`BatchShapeMismatchError`; the call succeeds. -/
theorem fromCNTKMB_first_zero_cex :
    (UnpackVariableValue cexV0 0).length = 0
    ∧ (UnpackVariableValue cexV1 0).length = 3
    ∧ (FromCNTKMB [] [cexV0, cexV1] [true, true] 0 []).1 = .ok () :=
  ⟨rfl, rfl, rfl⟩

/-- Claim C1 (amended): when all arguments unpack to the same sequence count, no
`BatchShapeMismatchError` is raised; and when the first argument's count
is nonzero (so `numSeq` really is recorded from it) and every example is
clean, any later argument with a differing count makes the call fail with
`BatchShapeMismatchError`. -/
theorem fromCNTKMB_mismatch_amended (res0 : List (List Constant))
    (inputs : List Value) (flags : List Bool) (dev : Device) (c : EyeCache) :
    (∀ cnt, (∀ v ∈ inputs, (UnpackVariableValue v dev).length = cnt) →
        (FromCNTKMB res0 inputs flags dev c).1 ≠ .error .BatchShapeMismatchError)
    ∧ (∀ v0 rest, inputs = v0 :: rest →
        (UnpackVariableValue v0 dev).length ≠ 0 →
        (∃ v ∈ rest, (UnpackVariableValue v dev).length
            ≠ (UnpackVariableValue v0 dev).length) →
        (∀ k, k < inputs.length →
          ∀ d ∈ UnpackVariableValue (inputs.getD k defaultValue) dev,
            exampleClean (hasAxisFor (flags.getD k false)) d) →
        (FromCNTKMB res0 inputs flags dev c).1 = .error .BatchShapeMismatchError) := by
  constructor
  · intro cnt hcnt
    rw [fromCNTKMB_def]
    exact argLoop_no_batch_error dev flags inputs 0 0 _ c cnt hcnt (Or.inl rfl)
  · rintro v0 rest rfl hn0 hex hclean
    rw [fromCNTKMB_def]
    have hchk : ¬ ((0 : Nat) ≠ 0 ∧ (0 : Nat) ≠ (UnpackVariableValue v0 dev).length) := by
      intro hc
      exact hc.1 rfl
    have hns1 : (if (0 : Nat) = 0 then (UnpackVariableValue v0 dev).length else 0)
        = (UnpackVariableValue v0 dev).length := rfl
    have hc0 := hclean 0 (by simp)
    simp only [List.getD_cons_zero] at hc0
    have hcleanv0 : ∀ s ∈ List.range
        (if (0 : Nat) = 0 then (UnpackVariableValue v0 dev).length else 0),
        exampleClean (hasAxisFor (flags.getD 0 false))
          ((UnpackVariableValue v0 dev).getD s defaultNDArrayView) := by
      intro s hs
      have hslen : s < (UnpackVariableValue v0 dev).length := by
        rw [hns1] at hs
        exact List.mem_range.mp hs
      exact hc0 _ (getD_mem _ s defaultNDArrayView hslen)
    obtain ⟨arg1, c1, hseq⟩ := seqLoop_ok_of_clean (hasAxisFor (flags.getD 0 false))
      (UnpackVariableValue v0 dev)
      (List.range (if (0 : Nat) = 0 then (UnpackVariableValue v0 dev).length else 0))
      (List.replicate (if (0 : Nat) = 0 then (UnpackVariableValue v0 dev).length else 0)
        defaultConstant) c hcleanv0
    rw [argLoop_step_ok dev flags v0 rest 0 0 _ c () arg1 c1 hchk hseq, hns1]
    refine argLoop_mismatch dev flags rest 1 (UnpackVariableValue v0 dev).length
      _ c1 hn0 ?_ hex
    intro k hk d hd
    have hc := hclean (k + 1) (by simpa using Nat.succ_lt_succ hk) d
      (by simpa [List.getD_cons_succ] using hd)
    have harith : (1 : Nat) + k = k + 1 := by omega
    rw [harith]
    exact hc

theorem fromCNTKMB_mismatch_amended_w :
    (FromCNTKMB [] [cexV1, cexV2] [true, true] 0 []).1
      = .error .BatchShapeMismatchError := by
  refine (fromCNTKMB_mismatch_amended [] [cexV1, cexV2] [true, true] 0 []).2
    cexV1 [cexV2] rfl (by decide) ⟨cexV2, by simp, by decide⟩ ?_
  decide

/-- Claim C2 counterexample: a failing call can leave the `res` out-parameter
partially populated — here the call fails with `BatchShapeMismatchError`
on the second argument, yet `res[0]` holds the 3 constants already built
for the first argument (while `res[1]` is still empty). -/
theorem fromCNTKMB_partial_result_cex :
    (FromCNTKMB [] [cexV1, cexV2] [true, true] 0 []).1
      = .error .BatchShapeMismatchError
    ∧ ((FromCNTKMB [] [cexV1, cexV2] [true, true] 0 []).2.1.getD 0 []).length = 3
    ∧ ((FromCNTKMB [] [cexV1, cexV2] [true, true] 0 []).2.1.getD 1 []).length = 0 :=
  ⟨rfl, rfl, rfl⟩

/-- Claim C2 (amended): every failing call surfaces the error synchronously and
returns no result value through the error channel, and no argument slot
after the failing argument is ever populated; slots of arguments processed
before the failure may however retain their partial contents. -/
theorem fromCNTKMB_fail_no_result (res0 : List (List Constant)) (inputs : List Value)
    (flags : List Bool) (dev : Device) (c : EyeCache) (e : CNTKError)
    (h : (FromCNTKMB res0 inputs flags dev c).1 = .error e) :
    (∀ u : Unit, (FromCNTKMB res0 inputs flags dev c).1 ≠ .ok u)
    ∧ ∃ j, j < inputs.length ∧ ∀ k, j < k →
        (FromCNTKMB res0 inputs flags dev c).2.1.getD k [] = [] := by
  constructor
  · intro u hcon
    rw [h] at hcon
    cases hcon
  · rw [fromCNTKMB_def] at h ⊢
    obtain ⟨j, h0j, hjlt, hpres⟩ := argLoop_error_tail dev flags inputs 0 0 _ c e h
    refine ⟨j, by omega, fun k hk => ?_⟩
    rw [hpres k hk, getD_replicate]

theorem fromCNTKMB_fail_no_result_w :
    (∀ u : Unit, (FromCNTKMB [] [cexV1, cexV2] [true, true] 0 []).1 ≠ .ok u)
    ∧ ∃ j, j < 2 ∧ ∀ k, j < k →
        (FromCNTKMB [] [cexV1, cexV2] [true, true] 0 []).2.1.getD k [] = [] := by
  exact fromCNTKMB_fail_no_result [] [cexV1, cexV2] [true, true] 0 []
    .BatchShapeMismatchError rfl

theorem unpack_length (v : Value) (dev : Device) :
    (UnpackVariableValue v dev).length = v.shape.getD (v.shape.length - 1) 0 := by
  simp [UnpackVariableValue]

theorem unpack_getD (v : Value) (dev : Device) (s : Nat)
    (hs : s < v.shape.getD (v.shape.length - 1) 0) :
    (UnpackVariableValue v dev).getD s defaultNDArrayView =
      { dataType := v.dataType, isSparse := v.isSparse, device := dev,
        shape := v.shape.take (v.shape.length - 2) ++ [v.seqLengths.getD s 0],
        flat := fun p => v.flat (p + s * (listProd (v.shape.take (v.shape.length - 2))
          * v.shape.getD (v.shape.length - 2) 0)) } := by
  exact getD_map_range _ s _ defaultNDArrayView hs

theorem dropLast_append_single {α : Type} (l : List α) (a : α) :
    (l ++ [a]).dropLast = l := by
  simp

theorem processExample_ok_dense (d : NDArrayView) (c : EyeCache)
    (d1 : NDArrayView) (c1 : EyeCache) (hsp : d.isSparse = false)
    (h : processExample false d c = .ok (d1, c1)) :
    d1 = Index d 0 ∧ c1 = c := by
  unfold processExample at h
  rw [if_neg (by simp)] at h
  by_cases ht : d.shape.getLastD 0 ≠ 1
  · rw [if_pos ht] at h
    cases h
  · rw [if_neg ht] at h
    unfold densifyStep at h
    rw [if_neg (by rw [index_isSparse]; simp [hsp])] at h
    cases h
    exact ⟨rfl, rfl⟩

/-- Claim C9: for a non-sequential argument `i` whose packed shape is
`sample ++ [1, batch]`, a successful call produces exactly `batch`
examples in `res[i]`, each of shape `sample`; and for a dense stream the
example stored at `res[i][s]` is exactly `Index` of the `s`-th unpacked
view, so the batch-item order is preserved. -/
theorem fromCNTKMB_roundtrip_shape (res0 : List (List Constant)) (inputs : List Value)
    (flags : List Bool) (dev : Device) (c : EyeCache) (i : Nat)
    (sample : List Nat) (batch : Nat)
    (hWF : cacheWF c) (hi : i < inputs.length)
    (hflag : flags.getD i false = false)
    (hshape : (inputs.getD i defaultValue).shape = sample ++ [1, batch])
    (hsp : (inputs.getD i defaultValue).isSparse = true → sample ≠ [])
    (hok : (FromCNTKMB res0 inputs flags dev c).1 = .ok ()) :
    ((FromCNTKMB res0 inputs flags dev c).2.1.getD i []).length = batch
    ∧ (∀ s, s < batch →
        (((FromCNTKMB res0 inputs flags dev c).2.1.getD i []).getD s
          defaultConstant).data.shape = sample)
    ∧ (∀ s, s < batch → (inputs.getD i defaultValue).isSparse = false →
        (((FromCNTKMB res0 inputs flags dev c).2.1.getD i []).getD s
          defaultConstant).data
          = Index ((UnpackVariableValue (inputs.getD i defaultValue) dev).getD s
              defaultNDArrayView) 0) := by
  rw [fromCNTKMB_def] at hok ⊢
  have hlen1 : (inputs.getD i defaultValue).shape.length - 1 = sample.length + 1 := by
    rw [hshape]
    simp
  have hbatch : (inputs.getD i defaultValue).shape.getD
      ((inputs.getD i defaultValue).shape.length - 1) 0 = batch := by
    rw [hlen1, hshape]
    simpa using getD_append_len sample [1, batch] 0 1
  have hcount : (UnpackVariableValue (inputs.getD i defaultValue) dev).length = batch := by
    rw [unpack_length, hbatch]
  have hlen2 : (inputs.getD i defaultValue).shape.length - 2 = sample.length := by
    rw [hshape]
    simp
  have htake : (inputs.getD i defaultValue).shape.take
      ((inputs.getD i defaultValue).shape.length - 2) = sample := by
    rw [hlen2, hshape]
    exact List.take_left sample [1, batch]
  have hslot := argLoop_ok_slot dev flags inputs 0 0
    (List.replicate inputs.length []) c i hWF hi hok (by simp)
  rw [Nat.zero_add] at hslot
  have hfa : hasAxisFor false = false := rfl
  refine ⟨by rw [hslot.1, hcount], ?_, ?_⟩
  · intro s hs
    obtain ⟨d1, c1, c2, hW1, hpe, hent⟩ := hslot.2 s (by rw [hcount]; exact hs)
    rw [hflag, hfa] at hpe
    have hex := unpack_getD (inputs.getD i defaultValue) dev s (by rw [hbatch]; exact hs)
    rw [hex] at hpe
    have hshape1 := processExample_ok_shape _ c1 d1 c2 hW1 ?_ hpe
    · rw [hent]
      show d1.shape = sample
      rw [hshape1]
      show ((inputs.getD i defaultValue).shape.take
        ((inputs.getD i defaultValue).shape.length - 2)
          ++ [(inputs.getD i defaultValue).seqLengths.getD s 0]).dropLast = sample
      rw [dropLast_append_single, htake]
    · intro hsp1
      show 2 ≤ ((inputs.getD i defaultValue).shape.take
        ((inputs.getD i defaultValue).shape.length - 2)
          ++ [(inputs.getD i defaultValue).seqLengths.getD s 0]).length
      rw [htake]
      have hne := hsp hsp1
      have : 1 ≤ sample.length := by
        cases hsm : sample with
        | nil => exact absurd hsm hne
        | cons x xs => simp [hsm]
      simp only [List.length_append, List.length_cons, List.length_nil]
      omega
  · intro s hs hdense
    obtain ⟨d1, c1, c2, hW1, hpe, hent⟩ := hslot.2 s (by rw [hcount]; exact hs)
    rw [hflag, hfa] at hpe
    have hexsp : ((UnpackVariableValue (inputs.getD i defaultValue) dev).getD s
        defaultNDArrayView).isSparse = false := by
      rw [unpack_getD (inputs.getD i defaultValue) dev s (by rw [hbatch]; exact hs)]
      exact hdense
    obtain ⟨hd1, _⟩ := processExample_ok_dense _ c1 d1 c2 hexsp hpe
    rw [hent]
    show d1 = _
    rw [hd1]

theorem fromCNTKMB_roundtrip_shape_w :
    ((FromCNTKMB [] [w9] [false] 0 []).2.1.getD 0 []).length = 2
    ∧ (((FromCNTKMB [] [w9] [false] 0 []).2.1.getD 0 []).getD 0
        defaultConstant).data.shape = [2]
    ∧ (((FromCNTKMB [] [w9] [false] 0 []).2.1.getD 0 []).getD 1
        defaultConstant).data
        = Index ((UnpackVariableValue w9 0).getD 1 defaultNDArrayView) 0 := by
  have h := fromCNTKMB_roundtrip_shape [] [w9] [false] 0 [] 0 [2] 2 cacheWF_nil
    (by decide) rfl rfl (by decide) rfl
  exact ⟨h.1, h.2.1 0 (by decide), h.2.2 1 (by decide) rfl⟩

end Dynamite
